import Mathlib

/-!
A shallow embedding of `bite.go` (github.com/landoop/bite): the command-line
application registry, the build lifecycle, the output-format controller and
the command lookup helpers, together with proofs about their behaviour.

Mutation in the Go code is modelled by explicit state passing; Go `nil`
pointers are modelled by `Option` (with `none` for `nil`); a Go panic is
modelled by an outer `Option` result (`none` = panic); fallible operations
return `Except`.
-/

namespace Bite

/-! ## Flag sets (spf13/pflag, as consulted by bite) -/

/-- Value held by a command-line flag. pflag stores typed values; only the
bool and string kinds are consulted by this package. -/
inductive FlagValue where
  | boolv (b : Bool)
  | strv (s : String)
deriving DecidableEq, Repr

/-- A registered flag (`pflag.Flag`): its name and current value. -/
structure Flag where
  name : String
  value : FlagValue
deriving DecidableEq, Repr

/-- A `pflag.FlagSet`: the ordered list of flags registered on it. -/
abbrev FlagSet := List Flag

/-- `pflag.FlagSet.GetBool`: the flag's boolean value, or an error (here
`none`) when the flag is absent or does not hold a bool. -/
def getBool (set : FlagSet) (flagName : String) : Option Bool :=
  match set.find? (fun f => f.name == flagName) with
  | some f =>
    match f.value with
    | .boolv b => some b
    | .strv _ => none
  | none => none

/-- `pflag.FlagSet.GetString`: the flag's string value, or an error (`none`)
when the flag is absent or does not hold a string. -/
def getString (set : FlagSet) (flagName : String) : Option String :=
  match set.find? (fun f => f.name == flagName) with
  | some f =>
    match f.value with
    | .strv s => some s
    | .boolv _ => none
  | none => none

/-- `machineFriendlyFlagKey`, bite.go line 342. -/
def machineFriendlyFlagKey : String := "machine-friendly"

/-- `GetMachineFriendlyFlagFrom` (bite.go lines 344-347): reads the flag's
value, discarding the error; the ignored error leaves the bool zero value
`false` when the flag is absent. -/
def GetMachineFriendlyFlagFrom (set : FlagSet) : Bool :=
  (getBool set machineFriendlyFlagKey).getD false

/-- `pflag.FlagSet.BoolVar`: defines a new bool flag with default value
`defValue`. pflag's `AddFlag` panics when a flag with the same name is
already defined; the panic is modelled as the `.error` result. -/
def boolVar (set : FlagSet) (flagName : String) (defValue : Bool) :
    Except String FlagSet :=
  match set.find? (fun f => f.name == flagName) with
  | some _ => .error (flagName ++ " flag redefined")
  | none => .ok (set ++ [{ name := flagName, value := .boolv defValue }])

/-- `RegisterMachineFriendlyFlagTo` (bite.go lines 353-360): registers the
persistent machine-friendly bool flag unless `GetMachineFriendlyFlagFrom`
reads `true` from the target set. (The Go function also accepts a `*bool`
to bind; pointer aliasing is outside the model, the flag's stored value is
its default `false`.) -/
def RegisterMachineFriendlyFlagTo (set : FlagSet) : Except String FlagSet :=
  if !GetMachineFriendlyFlagFrom set then
    boolVar set machineFriendlyFlagKey false
  else
    .ok set

/-! ## Command trees (spf13/cobra, as configured and queried by bite) -/

/-- `strings.Split(s, " ")[0]`: the prefix of `s` up to the first space. -/
def firstField (s : String) : String :=
  String.mk (s.data.takeWhile (fun c => c ≠ ' '))

/-- A node of the command tree (`cobra.Command`), restricted to the data
bite configures and consults: the `Use` line, short/long help, version,
example text, its flag set, and the child commands. `children` models the
sequence the engine reports from `Commands()`, in that order. -/
inductive Cmd where
  | mk (use short long version exampleText : String)
       (flags : FlagSet) (children : List Cmd)

/-- The `Use` line of a command. -/
def Cmd.use : Cmd → String
  | .mk u _ _ _ _ _ _ => u

/-- The child commands (`cobra.Command.Commands()`). -/
def Cmd.children : Cmd → List Cmd
  | .mk _ _ _ _ _ _ cs => cs

/-- The command's flag set, as consulted through `cmd.Flags()`. -/
def Cmd.flags : Cmd → FlagSet
  | .mk _ _ _ _ _ fs _ => fs

/-- The command's example text (`cobra.Command.Example`). -/
def Cmd.exampleText : Cmd → String
  | .mk _ _ _ _ e _ _ => e

/-- `cobra.Command.Name()`: the `Use` line up to the first space. -/
def Cmd.name (c : Cmd) : String :=
  firstField c.use

/-- `getCommand` (bite.go lines 229-239). The Go loop body returns on its
very first iteration — either the first child when its name matches, or the
result of recursing into that first child — so only the first child of each
node is ever examined. -/
def getCommand : Cmd → String → Option Cmd
  | .mk _ _ _ _ _ _ [], _ => none
  | .mk _ _ _ _ _ _ (c :: _), subCommandName =>
    if c.name = subCommandName then some c
    else getCommand c subCommandName

/-- The names of the nodes `getCommand` examines below a node: the first
child, the first child's first child, and so on. -/
def spineNames : Cmd → List String
  | .mk _ _ _ _ _ _ [] => []
  | .mk _ _ _ _ _ _ (c :: _) => c.name :: spineNames c

mutual

/-- All command names occurring in a subtree (the node and every
descendant). -/
def subtreeNames : Cmd → List String
  | .mk u _ _ _ _ _ cs => firstField u :: subtreeNamesList cs

/-- All command names occurring in a forest of subtrees. -/
def subtreeNamesList : List Cmd → List String
  | [] => []
  | c :: cs => subtreeNames c ++ subtreeNamesList cs

end

/-! ## The Application and the process-wide registry -/

/-- `bite.Application` (bite.go lines 51-75), restricted to the state the
verified operations read or write. The `*bool` field `MachineFriendly` is
`Option Bool` with `none` for a nil pointer; `CobraCommand` and
`currentCommand` are `Option Cmd` with `none` for nil. The `Setup`,
`Shutdown` and `HelpTemplate` fields only install behaviour on the external
engine and are not modelled state. -/
structure Application where
  name : String
  version : String := ""
  description : String := ""
  long : String := ""
  showSpinner : Bool := false
  disableOutputFormatController : Bool := false
  machineFriendly : Option Bool := none
  persistentFlags : Option (FlagSet → FlagSet) := none
  commands : List Cmd := []
  currentCommand : Option Cmd := none
  friendlyErrors : Option (List (String × String)) := none
  memory : Option Unit := none
  cobraCommand : Option Cmd := none

/-- `registerApplication` (bite.go lines 177-187): replace the first entry
with the same name in place, otherwise append. The global slice
`applications` is passed explicitly. -/
def registerApplication (apps : List Application) (app : Application) :
    List Application :=
  match apps with
  | [] => [app]
  | a :: rest =>
    if a.name = app.name then app :: rest
    else a :: registerApplication rest app

/-- `GetByName` (bite.go lines 201-209): linear scan, first exact match. -/
def GetByName (apps : List Application) (applicationName : String) :
    Option Application :=
  apps.find? (fun a => a.name == applicationName)

/-- `GetCommand` (bite.go lines 241-248). A registered application always
has a built root (only `Build` registers); for an unregistered name the Go
function returns nil, modelled as `none`. (Were a registered application's
root nil, the Go code would dereference nil; that state is unreachable
through the package API.) -/
def GetCommand (apps : List Application) (applicationName commandName : String) :
    Option Cmd :=
  match GetByName apps applicationName with
  | none => none
  | some app =>
    match app.cobraCommand with
    | none => none
    | some root => getCommand root commandName

/-! ## Build -/

/-- Index of the last occurrence of `c` in the list, or `-1` when absent
(`strings.LastIndexByte`; `'['` is a single byte, so byte indices and char
indices of its occurrences order the same way). -/
def lastIndexCharList : List Char → Char → Int
  | [], _ => -1
  | a :: rest, c =>
    let r := lastIndexCharList rest c
    if r ≥ 0 then r + 1
    else if a = c then 0 else -1

/-- The usage-text computation of `Build` (bite.go lines 267-270): append
" [command] [flags]" when the last `'['` of the name sits inside the
name's first space-separated field (in particular when there is none). -/
def buildUseText (name : String) : String :=
  if lastIndexCharList name.data '[' < ((firstField name).length : Int) then
    name ++ " [command] [flags]"
  else
    name

/-- `Build` (bite.go lines 254-340), with the global registry passed and
returned explicitly. Returns the (possibly updated) application, the
updated registry and the root command. Lines elided as engine behaviour
rather than state: the pre/post-run hook installation (297-313), the
version template (329-333), and the writer plumbing. -/
def Build (app : Application) (apps : List Application) :
    Application × List Application × Cmd :=
  match app.cobraCommand with
  | some root => (app, apps, root)   -- lines 255-257: already built, no-op
  | none =>
    -- lines 259-261: initialize the friendly-error table if absent
    let friendlyErrors := match app.friendlyErrors with
      | none => some ([] : List (String × String))
      | some fe => some fe
    -- lines 263-265: initialize the memory store if absent
    let memory := match app.memory with
      | none => some ()
      | some m => some m
    -- lines 267-270
    let useText := buildUseText app.name
    -- lines 272-274
    let long := if app.long = "" then app.description else app.long
    -- lines 287-290: fresh machine-friendly allocation and flag registration
    -- (on the fresh empty persistent flag set the registration cannot fail)
    let fs1 : FlagSet :=
      if !app.disableOutputFormatController then
        match RegisterMachineFriendlyFlagTo [] with
        | .ok s => s
        | .error _ => []
      else []
    -- lines 292-295: caller-supplied persistent-flags configurator
    let fs2 := match app.persistentFlags with
      | some configure => configure fs1
      | none => fs1
    -- lines 315-327: attach pending commands; first-child example heuristic
    let exampleText := match app.commands with
      | c :: _ => c.exampleText
      | [] => ""
    let root : Cmd :=
      .mk useText app.description long app.version exampleText fs2 app.commands
    let app2 : Application := { app with
      friendlyErrors := friendlyErrors
      memory := memory
      long := long
      machineFriendly := some false   -- line 287: app.MachineFriendly = new(bool)
      commands := []                  -- line 321: clear the pending list
      currentCommand := some root     -- line 335
      cobraCommand := some root }     -- line 336
    (app2, registerApplication apps app2, root)   -- lines 338-339

/-! ## The output controller -/

/-- `strings.HasSuffix`. -/
def hasSuffix (s suffix : String) : Bool :=
  suffix.data.isSuffixOf s.data

/-- The line `Print` sends to the writer (bite.go lines 78-80): append
"\r\n" unless the format already ends in a newline. (Formatting verbs are
the fmt package's concern; the verified behaviour is the trailing-newline
handling, stated for the format string itself.) -/
def printedLine (format : String) : String :=
  if !hasSuffix format "\n" then format ++ "\r\n" else format

/-- `Application.Print` (bite.go lines 77-84): the bytes handed to the bound
writer `w`, paired with the writer's error, which is returned unchanged
(`w b = none` means the write succeeded). -/
def Print (w : String → Option String) (format : String) :
    String × Option String :=
  (printedLine format, w (printedLine format))

/-- Modelled from the spec: `GetSilentFlag` lives in a source file not under
`src/`; per §4.3/§6 it reads the per-command boolean "silent" flag from the
command's flag set, and a failed read defaults to `false` (§7b). -/
def GetSilentFlag (cmd : Cmd) : Bool :=
  (getBool cmd.flags "silent").getD false

/-- `Application.PrintInfo` (bite.go lines 86-94). The outer `Option` models
panics: with a nil `MachineFriendly` pointer the dereference
`*app.MachineFriendly` faults; when that reads `false`, reading the silent
flag of a nil current command faults. Otherwise the result is the
`(bytes, write error)` pair of the suppressed or forwarded print. -/
def printInfo (app : Application) (w : String → Option String)
    (format : String) : Option (String × Option String) :=
  match app.machineFriendly with
  | none => none
  | some mf =>
    if mf then some ("", none)
    else
      match app.currentCommand with
      | none => none
      | some cmd =>
        if GetSilentFlag cmd then some ("", none)
        else some (Print w format)

/-- A Go `interface{}` value handed to the output controller, as far as
serialization is concerned: either it serializes (to some structured text)
or the serializer fails with a message. -/
inductive GoValue where
  | serializable (payload : String)
  | unserializable (msg : String)
deriving DecidableEq, Repr

/-- The structured output produced in machine-friendly mode: the payload,
the query path applied to it (if any), and whether it was indented. -/
structure JsonOutput where
  payload : String
  queried : Option String
  indented : Bool
deriving DecidableEq, Repr

/-- What `PrintObject` hands to the writer: a table rendering of the value
with the table-only filters, or structured output. -/
inductive OutputEvent where
  | table (v : GoValue) (tableOnlyFilters : List String)
  | json (j : JsonOutput)
deriving DecidableEq, Repr

/-- Modelled from the spec: `WriteJSON` lives in a source file not under
`src/`; per §4.3 it serializes the value as structured text, applying the
query filter when the path is non-empty and indenting unless pretty is
disabled, and surfaces serialization failures as errors. -/
def WriteJSON (v : GoValue) (pretty : Bool) (jmesQueryPath : String) :
    Except String JsonOutput :=
  match v with
  | .unserializable msg => .error msg
  | .serializable payload =>
    .ok { payload := payload
          queried := if jmesQueryPath = "" then none else some jmesQueryPath
          indented := pretty }

/-- `GetMachineFriendlyFlag` (bite.go lines 349-351). -/
def GetMachineFriendlyFlag (cmd : Cmd) : Bool :=
  GetMachineFriendlyFlagFrom cmd.flags

/-- Modelled from the spec: the "no-pretty" boolean flag reader (source file
not under `src/`), defaulting to `false` on a failed read (§6, §7b). -/
def GetJSONNoPrettyFlag (cmd : Cmd) : Bool :=
  (getBool cmd.flags "no-pretty").getD false

/-- Modelled from the spec: the query-path string flag reader (source file
not under `src/`), defaulting to the empty string on a failed read (§6,
§7b). -/
def GetJSONQueryFlag (cmd : Cmd) : String :=
  (getString cmd.flags "query").getD ""

/-- `PrintObject` (bite.go lines 112-123). The writer resolved on line 113
is where the returned `OutputEvent` goes; table rendering never fails
(line 121-122 return nil unconditionally). -/
def PrintObject (cmd : Cmd) (v : GoValue) (tableOnlyFilters : List String) :
    Except String OutputEvent :=
  let machineFriendlyFlagValue := GetMachineFriendlyFlag cmd
  if machineFriendlyFlagValue then
    let prettyFlagValue := !GetJSONNoPrettyFlag cmd
    let jmesQueryPathFlagValue := GetJSONQueryFlag cmd
    match WriteJSON v prettyFlagValue jmesQueryPathFlagValue with
    | .ok j => .ok (.json j)
    | .error e => .error e
  else
    .ok (.table v tableOnlyFilters)

/-- `Application.PrintObject` (bite.go lines 96-98): delegates to
`PrintObject` on the current command. On a nil current command the
delegate's `cmd.Root()` dereferences nil — a panic, modelled as the outer
`none`. -/
def Application.printObject (app : Application) (v : GoValue) :
    Option (Except String OutputEvent) :=
  match app.currentCommand with
  | none => none
  | some cmd => some (PrintObject cmd v [])

/-! ## Concrete inputs used by the witnesses and counterexamples -/

/-- A command with only a `Use` line and children, all other data empty. -/
def mkCmd (use : String) (children : List Cmd) : Cmd :=
  .mk use "" "" "" "" [] children

/-- A leaf command named "x". -/
def demoX : Cmd := mkCmd "x" []

/-- A leaf command named "target". -/
def demoTarget : Cmd := mkCmd "target" []

/-- A command whose first child is `demoX` and whose second child is
`demoTarget`. -/
def demoSub : Cmd := mkCmd "sub" [demoX, demoTarget]

/-- A root whose only child is `demoSub`; "target" is the second child of
the root's first child. -/
def demoRoot : Cmd := mkCmd "app" [demoSub]

/-- A flag set on which the machine-friendly flag is already defined, with
its default value `false`. -/
def mfFalseSet : FlagSet := [{ name := machineFriendlyFlagKey, value := .boolv false }]

/-- An application that has not been built: every pointer field is nil. -/
def unbuiltApp : Application := { name := "demo" }

/-- A built-looking application state: mode pointer allocated, current
command bound, silent flag unset. -/
def builtApp : Application :=
  { name := "demo"
    machineFriendly := some false
    currentCommand := some (mkCmd "demo" [])
    cobraCommand := some (mkCmd "demo" []) }

/-- An unbuilt application with the output-format controller disabled and a
stale non-nil mode pointer, exercising the unconditional fresh allocation
in `Build`. -/
def staleApp : Application :=
  { name := "tool"
    disableOutputFormatController := true
    machineFriendly := some true }

/-- Registry entry "a". -/
def appA : Application := { name := "a" }

/-- Registry entry "b". -/
def appB : Application := { name := "b" }

/-- A replacement application also named "a". -/
def appA2 : Application := { name := "a", version := "2" }

/-- A command flag set in machine-friendly mode with no-pretty set and a
query path supplied. -/
def mfCmd : Cmd :=
  Cmd.mk "do" "" "" "" ""
    [ { name := "machine-friendly", value := .boolv true }
    , { name := "no-pretty", value := .boolv true }
    , { name := "query", value := .strv "a.b" } ] []

/-- A command whose flag set lacks the machine-friendly flag: table mode. -/
def tableCmd : Cmd :=
  Cmd.mk "do" "" "" "" ""
    [ { name := "no-pretty", value := .boolv true }
    , { name := "query", value := .strv "a.b" } ] []

/-- A command with the silent flag set. -/
def silentCmd : Cmd :=
  Cmd.mk "do" "" "" "" "" [ { name := "silent", value := .boolv true } ] []

/-- A built application state in machine-friendly mode. -/
def mfApp : Application :=
  { name := "demo"
    machineFriendly := some true
    currentCommand := some (mkCmd "demo" []) }

/-- A built application state with the silent flag set on the current
command. -/
def silentApp : Application :=
  { name := "demo"
    machineFriendly := some false
    currentCommand := some silentCmd }

/-! ## Helper lemmas -/

/-- `getCommand` finds a command iff its name lies on the first-child spine
below the starting node. -/
theorem getCommand_none_iff (c : Cmd) (target : String) :
    getCommand c target = none ↔ target ∉ spineNames c := by
  induction c, target using getCommand.induct with
  | case1 u s l v e f target => simp [getCommand, spineNames]
  | case2 u s l v e f ch rest => simp [getCommand, spineNames]
  | case3 u s l v e f ch rest target h ih =>
    simp [getCommand, spineNames, h, ih, Ne.symm h]

/-- A command's own name occurs among its subtree's names. -/
theorem name_mem_subtreeNames (c : Cmd) : c.name ∈ subtreeNames c := by
  cases c with
  | mk u s l v e f cs => simp [Cmd.name, Cmd.use, subtreeNames]

/-- Every name on the first-child spine occurs in the subtree. -/
theorem spineNames_subset_subtreeNames (c : Cmd) :
    ∀ x ∈ spineNames c, x ∈ subtreeNames c := by
  induction c using spineNames.induct with
  | case1 u s l v e f => simp [spineNames]
  | case2 u s l v e f ch rest ih =>
    intro x hx
    simp only [spineNames, List.mem_cons] at hx
    simp only [subtreeNames, subtreeNamesList, List.mem_cons, List.mem_append]
    rcases hx with rfl | hx
    · exact Or.inr (Or.inl (name_mem_subtreeNames ch))
    · exact Or.inr (Or.inl (ih x hx))

/-! ## C1 -/

/-- C1: `getCommand` is a depth-first, first-child-only search. On a node
with no children it returns not-found; on a node with children it returns
the first child when that child's name matches and otherwise recurses into
only the first child and stops. A command is found iff its name lies on the
first-child spine, `GetCommand` delegates this search to the registered
application's root, and consequently when the target is the second child of
the root's first child, the first child itself does not match and the
target's name occurs nowhere in the first grandchild's subtree, `GetCommand`
reports not-found. -/
theorem getCommand_first_child_only :
    (∀ (u s l v e : String) (f : FlagSet) (target : String),
      getCommand (Cmd.mk u s l v e f []) target = none) ∧
    (∀ (u s l v e : String) (f : FlagSet) (c : Cmd) (cs : List Cmd)
        (target : String),
      getCommand (Cmd.mk u s l v e f (c :: cs)) target =
        if c.name = target then some c else getCommand c target) ∧
    (∀ (root : Cmd) (target : String),
      getCommand root target = none ↔ target ∉ spineNames root) ∧
    (∀ (apps : List Application) (an cn : String) (app : Application)
        (root : Cmd),
      GetByName apps an = some app → app.cobraCommand = some root →
      GetCommand apps an cn = getCommand root cn) ∧
    (∀ (root c1 x t : Cmd) (rest more : List Cmd) (target : String),
      root.children = c1 :: rest → c1.name ≠ target →
      c1.children = x :: t :: more → t.name = target →
      target ∉ subtreeNames x →
      getCommand root target = none) := by
  refine ⟨fun u s l v e f target => rfl, fun u s l v e f c cs target => rfl,
    getCommand_none_iff, ?_, ?_⟩
  · intro apps an cn app root h1 h2
    simp [GetCommand, h1, h2]
  · intro root c1 x t rest more target hch hname hch1 ht hsub
    have hx : getCommand x target = none := by
      rw [getCommand_none_iff]
      intro hmem
      exact hsub (spineNames_subset_subtreeNames x target hmem)
    have hxname : x.name ≠ target := by
      intro h
      exact hsub (h ▸ name_mem_subtreeNames x)
    cases root with
    | mk u s l v e f cs =>
      simp only [Cmd.children] at hch
      subst hch
      cases c1 with
      | mk u1 s1 l1 v1 e1 f1 cs1 =>
        simp only [Cmd.children] at hch1
        subst hch1
        simp [getCommand, hname, hxname, hx]

/-- C1 witness: on the concrete tree whose root's only child is "sub" and
where "target" is the second child of "sub", the search is not-found. -/
theorem getCommand_first_child_only_witness :
    getCommand demoRoot "target" = none := by
  apply getCommand_first_child_only.2.2.2.2 demoRoot demoSub demoX demoTarget
    [] [] "target"
  · rfl
  · decide
  · rfl
  · rfl
  · decide

/-! ## C2 -/

/-- C2 counterexample: on a flag set where the machine-friendly flag is
already defined with its default value `false`, `RegisterMachineFriendlyFlagTo`
does not skip — it attempts to define the flag a second time (pflag's
flag-redefinition panic), so registration is not idempotent regardless of
the flag's current value. -/
theorem register_mf_not_idempotent :
    RegisterMachineFriendlyFlagTo mfFalseSet =
      .error (machineFriendlyFlagKey ++ " flag redefined") ∧
    RegisterMachineFriendlyFlagTo mfFalseSet ≠ .ok mfFalseSet := by
  refine ⟨rfl, fun h => ?_⟩
  rw [show RegisterMachineFriendlyFlagTo mfFalseSet =
        Except.error (machineFriendlyFlagKey ++ " flag redefined") from rfl] at h
  exact Except.noConfusion h

/-- C2 (amended): registration is skipped only when the machine-friendly
flag currently reads `true` on the target flag set; when the flag is absent
it is defined (appended with default `false`); when it is present but reads
`false`, the function attempts to define it a second time, which is pflag's
flag-redefinition panic. -/
theorem register_mf_spec (set : FlagSet) :
    (GetMachineFriendlyFlagFrom set = true →
      RegisterMachineFriendlyFlagTo set = .ok set) ∧
    (set.find? (fun f => f.name == machineFriendlyFlagKey) = none →
      RegisterMachineFriendlyFlagTo set =
        .ok (set ++ [{ name := machineFriendlyFlagKey, value := .boolv false }])) ∧
    (GetMachineFriendlyFlagFrom set = false →
      (set.find? (fun f => f.name == machineFriendlyFlagKey)).isSome = true →
      RegisterMachineFriendlyFlagTo set =
        .error (machineFriendlyFlagKey ++ " flag redefined")) := by
  refine ⟨?_, ?_, ?_⟩
  · intro h
    simp [RegisterMachineFriendlyFlagTo, h]
  · intro h
    have hg : GetMachineFriendlyFlagFrom set = false := by
      simp [GetMachineFriendlyFlagFrom, getBool, h]
    simp [RegisterMachineFriendlyFlagTo, hg, boolVar, h]
  · intro hg hs
    rcases Option.isSome_iff_exists.mp hs with ⟨f, hf⟩
    simp [RegisterMachineFriendlyFlagTo, hg, boolVar, hf]

/-- C2 witness: the amended characterization evaluated on concrete sets —
skipped when the flag reads true, defined when the flag is absent. -/
theorem register_mf_spec_witness :
    RegisterMachineFriendlyFlagTo [⟨machineFriendlyFlagKey, .boolv true⟩] =
      .ok [⟨machineFriendlyFlagKey, .boolv true⟩] ∧
    RegisterMachineFriendlyFlagTo [] =
      .ok [⟨machineFriendlyFlagKey, .boolv false⟩] :=
  ⟨(register_mf_spec _).1 rfl, (register_mf_spec _).2.1 rfl⟩

/-! ## C3 -/

/-- C3 counterexample: `PrintInfo` on an unbuilt application dereferences
the nil `MachineFriendly` pointer — a panic (modelled as `none`), not a
returned error value, so not every failure of a public operation on an
unbuilt application is representable as an error or not-found result. -/
theorem printInfo_unbuilt_panics :
    printInfo unbuiltApp (fun _ => none) "hello" = none := rfl

/-- C3 (amended): `Print` and the registry lookups never panic, and
`PrintInfo`/`PrintObject` are panic-free on any application whose
`MachineFriendly` pointer is allocated and whose current command is bound
(the state `Build` establishes); on an unbuilt application those two
operations fault on a nil dereference instead of returning an error. -/
theorem print_operations_safe_after_build (app : Application)
    (w : String → Option String) (fmt : String) (v : GoValue)
    (h1 : app.machineFriendly ≠ none) (h2 : app.currentCommand ≠ none) :
    (printInfo app w fmt).isSome = true ∧
    (app.printObject v).isSome = true := by
  rcases hmf : app.machineFriendly with _ | mf
  · exact absurd hmf h1
  rcases hcur : app.currentCommand with _ | cmd
  · exact absurd hcur h2
  constructor
  · simp only [printInfo, hmf, hcur]
    cases mf <;> by_cases hs : GetSilentFlag cmd <;> simp [hs]
  · simp [Application.printObject, hcur]

/-- C3 witness: the amended safety statement evaluated on a concrete built
application state. -/
theorem print_operations_safe_after_build_witness :
    (printInfo builtApp (fun _ => none) "hello").isSome = true ∧
    (builtApp.printObject (.serializable "v")).isSome = true :=
  print_operations_safe_after_build builtApp (fun _ => none) "hello"
    (.serializable "v") (by simp [builtApp]) (by simp [builtApp])

/-! ## C4 -/

/-- C4: `Build` is idempotent — a second call on the application returned by
the first returns the identical root, leaves the application untouched
(so persistent flags and pending commands are not duplicated) and leaves
the registry unchanged. -/
theorem Build_idempotent (app : Application) (apps : List Application) :
    Build (Build app apps).1 (Build app apps).2.1 = Build app apps := by
  cases h : app.cobraCommand with
  | some root => simp [Build, h]
  | none => simp [Build, h]

/-! ## C5 helper lemmas -/

/-- When no registered application bears the name, registration appends. -/
theorem registerApplication_of_not_mem (apps : List Application)
    (app : Application) (h : ∀ a ∈ apps, a.name ≠ app.name) :
    registerApplication apps app = apps ++ [app] := by
  induction apps with
  | nil => rfl
  | cons a rest ih =>
    have ha : a.name ≠ app.name := h a (List.mem_cons_self a rest)
    simp [registerApplication, ha,
      ih (fun b hb => h b (List.mem_cons_of_mem a hb))]

/-- When the first entry bearing the name sits at index `i`, registration
replaces exactly that slot. -/
theorem registerApplication_of_found (apps : List Application)
    (app : Application) :
    ∀ (i : Nat) (hi : i < apps.length),
      (apps.get ⟨i, hi⟩).name = app.name →
      (∀ (j : Nat) (hj : j < i),
        (apps.get ⟨j, Nat.lt_trans hj hi⟩).name ≠ app.name) →
      registerApplication apps app = apps.set i app := by
  induction apps with
  | nil =>
    intro i hi
    exact absurd hi (by simp)
  | cons a rest ih =>
    intro i hi hname hfirst
    cases i with
    | zero =>
      simp only [List.get] at hname
      simp [registerApplication, hname]
    | succ i =>
      have ha : a.name ≠ app.name := by
        have h0 := hfirst 0 (Nat.succ_pos i)
        simpa using h0
      simp only [List.get] at hname
      have hrest := ih i (Nat.lt_of_succ_lt_succ hi) hname (fun j hj => by
        have hj1 := hfirst (j + 1) (Nat.succ_lt_succ hj)
        simpa using hj1)
      simp [registerApplication, ha, List.set, hrest]

/-- Registration never shrinks the registry. -/
theorem registerApplication_length_le (apps : List Application)
    (app : Application) :
    apps.length ≤ (registerApplication apps app).length := by
  induction apps with
  | nil => simp [registerApplication]
  | cons a rest ih =>
    by_cases h : a.name = app.name
    · simp [registerApplication, h]
    · simpa [registerApplication, h] using ih

/-- Registration preserves every entry with a different name. -/
theorem registerApplication_mem_preserve (apps : List Application)
    (app : Application) :
    ∀ b ∈ apps, b.name ≠ app.name → b ∈ registerApplication apps app := by
  induction apps with
  | nil => intro b hb; exact absurd hb (by simp)
  | cons a rest ih =>
    intro b hb hbname
    by_cases h : a.name = app.name
    · simp only [registerApplication, if_pos h]
      rcases List.mem_cons.mp hb with rfl | hbrest
      · exact absurd h hbname
      · exact List.mem_cons_of_mem app hbrest
    · simp only [registerApplication, if_neg h]
      rcases List.mem_cons.mp hb with rfl | hbrest
      · exact List.mem_cons_self b _
      · exact List.mem_cons_of_mem a (ih b hbrest hbname)

/-! ## C5 -/

/-- C5: registering an application whose name is not yet present appends it;
registering a name already present replaces the first entry of that name in
place, with the registry size unchanged; registration never removes an
entry — the registry never shrinks and every entry with a different name
survives. -/
theorem registerApplication_spec (apps : List Application)
    (app : Application) :
    ((∀ a ∈ apps, a.name ≠ app.name) →
      registerApplication apps app = apps ++ [app]) ∧
    (∀ (i : Nat) (hi : i < apps.length),
      (apps.get ⟨i, hi⟩).name = app.name →
      (∀ (j : Nat) (hj : j < i),
        (apps.get ⟨j, Nat.lt_trans hj hi⟩).name ≠ app.name) →
      registerApplication apps app = apps.set i app ∧
      (registerApplication apps app).length = apps.length) ∧
    apps.length ≤ (registerApplication apps app).length ∧
    (∀ b ∈ apps, b.name ≠ app.name → b ∈ registerApplication apps app) := by
  refine ⟨registerApplication_of_not_mem apps app, ?_,
    registerApplication_length_le apps app,
    registerApplication_mem_preserve apps app⟩
  intro i hi hname hfirst
  have h := registerApplication_of_found apps app i hi hname hfirst
  refine ⟨h, ?_⟩
  rw [h]
  simp

/-- C5 witness: with "a" and "b" registered, registering a new application
named "a" overwrites slot 0 in place and the size stays 2. -/
theorem registerApplication_spec_witness :
    registerApplication [appA, appB] appA2 = [appA2, appB] ∧
    (registerApplication [appA, appB] appA2).length = 2 := by
  have h := (registerApplication_spec [appA, appB] appA2).2.1 0 (by simp)
    rfl (fun j hj => absurd hj (Nat.not_lt_zero j))
  exact ⟨h.1, h.2⟩

/-! ## C6 -/

/-- C6: in table mode (machine-friendly flag false or absent) `PrintObject`
renders the value as a table with the supplied table-only filters and
returns nil, and its result is independent of the query-path and no-pretty
flags; in machine-friendly mode it serializes the value as structured text,
indented unless no-pretty is set and filtered by the query path when
non-empty, and a serialization failure is returned as an error. -/
theorem PrintObject_spec :
    (∀ (cmd : Cmd) (v : GoValue) (fl : List String),
      GetMachineFriendlyFlag cmd = false →
      PrintObject cmd v fl = .ok (.table v fl)) ∧
    (∀ (cmd cmd' : Cmd) (v : GoValue) (fl : List String),
      GetMachineFriendlyFlag cmd = false →
      GetMachineFriendlyFlag cmd' = false →
      PrintObject cmd v fl = PrintObject cmd' v fl) ∧
    (∀ (cmd : Cmd) (msg : String) (fl : List String),
      GetMachineFriendlyFlag cmd = true →
      PrintObject cmd (.unserializable msg) fl = .error msg) ∧
    (∀ (cmd : Cmd) (s : String) (fl : List String),
      GetMachineFriendlyFlag cmd = true →
      PrintObject cmd (.serializable s) fl =
        .ok (.json { payload := s
                     queried := if GetJSONQueryFlag cmd = "" then none
                                else some (GetJSONQueryFlag cmd)
                     indented := !GetJSONNoPrettyFlag cmd })) := by
  have htable : ∀ (cmd : Cmd) (v : GoValue) (fl : List String),
      GetMachineFriendlyFlag cmd = false →
      PrintObject cmd v fl = .ok (.table v fl) := by
    intro cmd v fl h
    simp [PrintObject, h]
  refine ⟨htable, ?_, ?_, ?_⟩
  · intro cmd cmd' v fl h h'
    rw [htable cmd v fl h, htable cmd' v fl h']
  · intro cmd msg fl h
    simp [PrintObject, h, WriteJSON]
  · intro cmd s fl h
    simp [PrintObject, h, WriteJSON]

/-- C6 witness: table mode ignores the json flags and returns the table
event; machine-friendly mode with no-pretty set and query "a.b" yields
compact, query-filtered structured output. -/
theorem PrintObject_spec_witness :
    PrintObject tableCmd (.serializable "v") ["f"] =
      .ok (.table (.serializable "v") ["f"]) ∧
    PrintObject mfCmd (.serializable "v") [] =
      .ok (.json { payload := "v", queried := some "a.b", indented := false }) := by
  refine ⟨PrintObject_spec.1 tableCmd (.serializable "v") ["f"] rfl, ?_⟩
  exact (PrintObject_spec.2.2.2 mfCmd "v" [] rfl).trans rfl

/-! ## C7 -/

/-- C7: `PrintInfo` produces no output and returns nil whenever
machine-friendly mode is true (regardless of the silent flag) or the silent
flag is set on the current command (regardless of machine-friendly mode);
otherwise it behaves exactly like `Print`. -/
theorem printInfo_spec (app : Application) (w : String → Option String)
    (fmt : String) (mf : Bool) (cmd : Cmd)
    (hmf : app.machineFriendly = some mf)
    (hcur : app.currentCommand = some cmd) :
    (mf = true → printInfo app w fmt = some ("", none)) ∧
    (GetSilentFlag cmd = true → printInfo app w fmt = some ("", none)) ∧
    (mf = false → GetSilentFlag cmd = false →
      printInfo app w fmt = some (Print w fmt)) := by
  refine ⟨?_, ?_, ?_⟩
  · intro h
    simp [printInfo, hmf, h]
  · intro h
    cases mf <;> simp [printInfo, hmf, hcur, h]
  · intro h1 h2
    simp [printInfo, hmf, hcur, h1, h2]

/-- C7 witness: suppressed (no bytes, nil error) in machine-friendly mode
and under the silent flag; forwarded to `Print` otherwise. -/
theorem printInfo_spec_witness :
    printInfo mfApp (fun _ => none) "hi" = some ("", none) ∧
    printInfo silentApp (fun _ => none) "hi" = some ("", none) ∧
    printInfo builtApp (fun _ => none) "hi" =
      some (Print (fun _ => none) "hi") := by
  refine ⟨?_, ?_, ?_⟩
  · exact (printInfo_spec mfApp (fun _ => none) "hi" true (mkCmd "demo" [])
      rfl rfl).1 rfl
  · exact (printInfo_spec silentApp (fun _ => none) "hi" false silentCmd
      rfl rfl).2.1 rfl
  · exact (printInfo_spec builtApp (fun _ => none) "hi" false (mkCmd "demo" [])
      rfl rfl).2.2 rfl rfl

/-! ## C8 -/

/-- C8: `Print` appends a carriage-return plus newline when the format
lacks a trailing newline and leaves the format unmodified when it already
ends in a newline — `Print "hello"` writes "hello\r\n" and
`Print "hello\n"` writes "hello\n" — and it returns the underlying writer's
error unchanged. -/
theorem Print_spec :
    (∀ w : String → Option String,
      Print w "hello" = ("hello\r\n", w "hello\r\n")) ∧
    (∀ w : String → Option String,
      Print w "hello\n" = ("hello\n", w "hello\n")) ∧
    (∀ (w : String → Option String) (format : String),
      hasSuffix format "\n" = false →
      Print w format = (format ++ "\r\n", w (format ++ "\r\n"))) ∧
    (∀ (w : String → Option String) (format : String),
      hasSuffix format "\n" = true →
      Print w format = (format, w format)) := by
  refine ⟨fun w => rfl, fun w => rfl, ?_, ?_⟩
  · intro w format h
    simp [Print, printedLine, h]
  · intro w format h
    simp [Print, printedLine, h]

/-- C8 witness: the trailing-newline characterization evaluated on "ok" and
"ok\n" with a succeeding writer. -/
theorem Print_spec_witness :
    Print (fun _ => none) "ok" = ("ok\r\n", none) ∧
    Print (fun _ => none) "ok\n" = ("ok\n", none) := by
  constructor
  · exact (Print_spec.2.2.1 (fun _ => none) "ok" rfl).trans rfl
  · exact (Print_spec.2.2.2 (fun _ => none) "ok\n" rfl).trans rfl

/-! ## C9 helper lemmas -/

/-- A character occurs in the list iff its last index is non-negative. -/
theorem mem_iff_lastIndexCharList_nonneg (l : List Char) (c : Char) :
    c ∈ l ↔ 0 ≤ lastIndexCharList l c := by
  induction l with
  | nil => simp [lastIndexCharList]
  | cons a rest ih =>
    simp only [lastIndexCharList, List.mem_cons]
    by_cases hr : lastIndexCharList rest c ≥ 0
    · rw [if_pos hr]
      constructor
      · intro _
        omega
      · intro _
        exact Or.inr (ih.mpr hr)
    · rw [if_neg hr]
      by_cases hac : a = c
      · rw [if_pos hac]
        constructor
        · intro _
          omega
        · intro _
          exact Or.inl hac.symm
      · rw [if_neg hac]
        constructor
        · intro h
          rcases h with h | h
          · exact absurd h.symm hac
          · exact absurd (ih.mp h) hr
        · intro h
          omega

/-- The last index of `c` is below `k` iff `c` does not occur at position
`k` or later. -/
theorem lastIndexCharList_lt_iff (l : List Char) (c : Char) :
    ∀ k : Nat, lastIndexCharList l c < (k : Int) ↔ c ∉ l.drop k := by
  induction l with
  | nil =>
    intro k
    simp [lastIndexCharList]
    omega
  | cons a rest ih =>
    intro k
    cases k with
    | zero =>
      rw [List.drop_zero]
      have hm := mem_iff_lastIndexCharList_nonneg (a :: rest) c
      constructor
      · intro h hmem
        have := hm.mp hmem
        omega
      · intro h
        by_contra h'
        exact h (hm.mpr (by omega))
    | succ k =>
      simp only [lastIndexCharList, List.drop_succ_cons]
      by_cases hr : lastIndexCharList rest c ≥ 0
      · rw [if_pos hr, ← ih k]
        push_cast
        omega
      · rw [if_neg hr]
        have hnotmem : c ∉ rest :=
          fun hmem => hr ((mem_iff_lastIndexCharList_nonneg rest c).mp hmem)
        have hdrop : c ∉ rest.drop k :=
          fun hmem => hnotmem (List.mem_of_mem_drop hmem)
        constructor
        · intro _
          exact hdrop
        · intro _
          split <;> push_cast <;> omega

/-! ## C9 -/

/-- C9: `Build` uses the application name verbatim as the root's usage
string iff the name already contains bracketed usage text — a `'['` at or
after the end of the name's first space-separated word — and otherwise
appends " [command] [flags]". -/
theorem buildUseText_spec (name : String) :
    ('[' ∉ name.data.drop (firstField name).length →
      buildUseText name = name ++ " [command] [flags]") ∧
    ('[' ∈ name.data.drop (firstField name).length →
      buildUseText name = name) ∧
    (∀ (app : Application) (apps : List Application),
      app.cobraCommand = none →
      ((Build app apps).2.2).use = buildUseText app.name) := by
  refine ⟨?_, ?_, ?_⟩
  · intro h
    rw [buildUseText, if_pos]
    exact (lastIndexCharList_lt_iff name.data '[' (firstField name).length).mpr h
  · intro h
    rw [buildUseText, if_neg]
    intro hlt
    exact (lastIndexCharList_lt_iff name.data '[' (firstField name).length).mp hlt h
  · intro app apps h
    simp [Build, h, Cmd.use]

/-- C9 witness: a plain name gets " [command] [flags]" appended; a name
already carrying bracketed usage text is used verbatim. -/
theorem buildUseText_spec_witness :
    buildUseText "tool" = "tool [command] [flags]" ∧
    buildUseText "tool [command] [flags]" = "tool [command] [flags]" := by
  constructor
  · exact (buildUseText_spec "tool").1 (by decide)
  · exact (buildUseText_spec "tool [command] [flags]").2.1 (by decide)

/-- An if-then-else whose branches are both `some` is always `isSome`. -/
theorem isSome_ite_some {α : Type} {c : Prop} [Decidable c] (x y : α) :
    (if c then some x else some y).isSome = true := by
  split <;> rfl

/-! ## C10 -/

/-- C10: on an application not yet built, `Build` unconditionally allocates
a fresh mode pointer — afterwards `MachineFriendly` is `some false`, even
when the output-format controller is disabled and whatever pointer was
stored before — and binds the current command, so the dereferences in
`PrintInfo` cannot fault after `Build`. -/
theorem Build_machineFriendly_fresh (app : Application)
    (apps : List Application) (h : app.cobraCommand = none) :
    ((Build app apps).1).machineFriendly = some false ∧
    ((Build app apps).1).currentCommand = some (Build app apps).2.2 ∧
    (∀ (w : String → Option String) (fmt : String),
      (printInfo (Build app apps).1 w fmt).isSome = true) := by
  refine ⟨?_, ?_, ?_⟩
  · simp [Build, h]
  · simp [Build, h]
  · intro w fmt
    simp only [Build, h]
    simp only [printInfo]
    split
    · simp
    · exact isSome_ite_some _ _

/-- C10 witness: an unbuilt application with the controller disabled and a
stale `some true` mode pointer gets a fresh pointer to `false`, and
`PrintInfo` no longer faults. -/
theorem Build_machineFriendly_fresh_witness :
    ((Build staleApp []).1).machineFriendly = some false ∧
    (printInfo (Build staleApp []).1 (fun _ => none) "hi").isSome = true :=
  ⟨(Build_machineFriendly_fresh staleApp [] rfl).1,
   (Build_machineFriendly_fresh staleApp [] rfl).2.2 (fun _ => none) "hi"⟩

end Bite
